import Mathlib

/-!
Verification of the WGISD grape-detection annotation pipeline.

Shallow embedding of the annotation-relevant scripts:
  scripts/convert_to_coco.py        (CSV schema resolution, COCO record assembly)
  scripts/convert_yolo_to_csv.py    (normalized-center to absolute-top-left geometry)
  scripts/convert_npz_to_png.py     (multi-channel mask reduction)
  scripts/organize_dataset.py       (train/val/test split allocation)
  scripts/add_berry_counts_to_json.py (berry-count enrichment of JSON documents)

Python floats are modelled by exact rationals; Python string primitives
(`str.lower`, `str.strip`, `float(...)`, lexicographic comparison used by
`sorted`) are modelled by executable character-level functions; the
file-system boundary is modelled by explicit input types (a CSV source is
missing, unreadable, empty, or a table of rows); a Python function that can
let an exception escape to its caller is modelled with `Except`, and a
`try/except` handler that swallows exceptions is modelled by a function that
never returns `.error`.
-/

/-- ASCII lower-casing of one character, modelling Python `str.lower` on the
ASCII column names that occur in this data set. -/
def charLower (c : Char) : Char :=
  if 'A' ≤ c ∧ c ≤ 'Z' then Char.ofNat (c.toNat + 32) else c

/-- Model of Python `str.lower` (character-wise ASCII lower-casing). -/
def strLower (s : String) : String := ⟨s.data.map charLower⟩

/-- Whitespace test used by the model of Python `str.strip`. -/
def isSpaceChar (c : Char) : Bool := c = ' ' || c = '\t' || c = '\n' || c = '\r'

/-- Model of Python `str.strip`: drop leading and trailing whitespace. -/
def strTrim (s : String) : String :=
  ⟨((s.data.dropWhile isSpaceChar).reverse.dropWhile isSpaceChar).reverse⟩

/-- Decimal digit value of a character, or `none`. -/
def digitVal (c : Char) : Option ℕ :=
  if '0' ≤ c ∧ c ≤ '9' then some (c.toNat - '0'.toNat) else none

/-- Fold a digit string into a natural number; any non-digit yields `none`. -/
def digitsToNat : List Char → Option ℕ → Option ℕ
  | [], acc => acc
  | c :: rest, acc =>
    match digitVal c, acc with
    | some d, some a => digitsToNat rest (some (10 * a + d))
    | some d, none => digitsToNat rest (some d)
    | none, _ => none

/-- Parse a non-empty all-digit string as a natural number. -/
def strToNat (s : String) : Option ℕ :=
  if s.data = [] then none else digitsToNat s.data none

/-- Split a character list at every `'.'`, keeping empty pieces, modelling
Python `s.split(".")`. -/
def splitDot (cs : List Char) : List (List Char) :=
  match cs with
  | [] => [[]]
  | c :: rest =>
    let r := splitDot rest
    if c = '.' then [] :: r
    else
      match r with
      | [] => [[c]]
      | p :: ps => (c :: p) :: ps

/-- Lexicographic comparison of character lists by code point, modelling the
string order used by Python `sorted`. -/
def charListLe : List Char → List Char → Bool
  | [], _ => true
  | _ :: _, [] => false
  | a :: as, b :: bs =>
    if a.toNat < b.toNat then true
    else if a.toNat = b.toNat then charListLe as bs
    else false

/-- Lexicographic string comparison by code point (Python `sorted` order). -/
def strLe (a b : String) : Bool := charListLe a.data b.data

/-- The order relation induced by `strLe`, used with `List.insertionSort` to
model Python `sorted` on lists of names. -/
def strOrd (a b : String) : Prop := strLe a b = true

instance : DecidableRel strOrd := fun a b => instDecidableEqBool (strLe a b) true

/-- Model of Python `sorted` on a list of strings. -/
def pySorted (l : List String) : List String := List.insertionSort strOrd l

/-- Association-list lookup, modelling Python `d[k]` / `k in d` on a dict
whose insertion order is the list order. -/
def getKey {α : Type} : List (String × α) → String → Option α
  | [], _ => none
  | (k', v') :: rest, k => if k' = k then some v' else getKey rest k

/-- Association-list update, modelling Python `d[k] = v`: an existing key keeps
its position, a new key is appended at the end. -/
def setKey {α : Type} : List (String × α) → String → α → List (String × α)
  | [], k, v => [(k, v)]
  | (k', v') :: rest, k, v =>
    if k' = k then (k, v) :: rest else (k', v') :: setKey rest k v

/-- Membership test on an association list, modelling Python `k in d`. -/
def hasKey {α : Type} (l : List (String × α)) (k : String) : Bool :=
  (getKey l k).isSome

/-- Model of Python `float(s)` restricted to plain decimal literals
(optional sign, integer part, optional fractional part), returning an exact
rational; `none` models a `ValueError`.  Python's `float` also strips
surrounding whitespace, hence the `strTrim`. -/
def parseFloat (s : String) : Option ℚ :=
  let t := strTrim s
  if t.data = [] then none
  else
    let signBody : Bool × List Char :=
      match t.data with
      | '-' :: rest => (true, rest)
      | '+' :: rest => (false, rest)
      | cs => (false, cs)
    let signed : ℚ → ℚ := fun q => if signBody.1 then -q else q
    match splitDot signBody.2 with
    | [ip] =>
      match strToNat ⟨ip⟩ with
      | some n => some (signed n)
      | none => none
    | [ip, fp] =>
      if ip = [] && fp = [] then none
      else
        let ipn := if ip = [] then some 0 else strToNat ⟨ip⟩
        let fpn := if fp = [] then some 0 else strToNat ⟨fp⟩
        match ipn, fpn with
        | some a, some b => some (signed ((a : ℚ) + (b : ℚ) / (10 : ℚ) ^ fp.length))
        | _, _ => none
    | _ => none

instance : IsTotal String strOrd where
  total a b := by
    unfold strOrd strLe
    generalize a.data = x
    generalize b.data = y
    induction x generalizing y with
    | nil => left; rfl
    | cons c cs ih =>
      cases y with
      | nil => right; rfl
      | cons d ds =>
        rcases Nat.lt_trichotomy c.toNat d.toNat with h | h | h
        · left; simp [charListLe, h]
        · rcases ih ds with h2 | h2
          · left; simp [charListLe, h, h2]
          · right; simp [charListLe, h.symm, h2, Nat.lt_irrefl]
        · right; simp [charListLe, h, Nat.lt_asymm h, Nat.ne_of_lt h]

instance : IsTrans String strOrd where
  trans a b c hab hbc := by
    unfold strOrd strLe at *
    revert hab hbc
    generalize a.data = x
    generalize b.data = y
    generalize c.data = z
    induction x generalizing y z with
    | nil => intro _ _; rfl
    | cons u us ih =>
      cases y with
      | nil => intro hab _; simp [charListLe] at hab
      | cons v vs =>
        cases z with
        | nil => intro _ hbc; simp [charListLe] at hbc
        | cons w ws =>
          intro hab hbc
          rcases Nat.lt_trichotomy u.toNat v.toNat with h1 | h1 | h1
          · rcases Nat.lt_trichotomy v.toNat w.toNat with h2 | h2 | h2
            · simp [charListLe, Nat.lt_trans h1 h2]
            · simp [charListLe, h2 ▸ h1]
            · simp [charListLe, Nat.lt_asymm h2, Nat.ne_of_gt h2] at hbc
          · rcases Nat.lt_trichotomy v.toNat w.toNat with h2 | h2 | h2
            · simp [charListLe, h1 ▸ h2]
            · simp only [charListLe, h1, h2] at hab hbc ⊢
              simp only [Nat.lt_irrefl, if_false, if_pos rfl] at hab hbc ⊢
              exact ih vs ws hab hbc
            · simp [charListLe, Nat.lt_asymm h2, Nat.ne_of_gt h2] at hbc
          · simp [charListLe, Nat.lt_asymm h1, Nat.ne_of_gt h1] at hab


/-- One CSV data row as produced by `csv.DictReader`: field name to value,
in column order.  A `none` value models Python `None` (a short row). -/
abbrev CsvRow := List (String × Option String)

/-- Model of `{k.lower(): v for k, v in row.items()}` from
`convert_to_coco.py:_parse_csv_boxes` (line 51): keys are lower-cased in
order, a later duplicate overwriting an earlier one. -/
def dictLower (row : CsvRow) : CsvRow :=
  row.foldl (fun acc kv => setKey acc (strLower kv.1) kv.2) []

/-- Model of the inner `get(key_variants)` closure of
`convert_to_coco.py:_parse_csv_boxes` (lines 54-61): the first alias whose
value is present, non-`None`, non-empty and parses as a float wins; a parse
failure falls through to the next alias. -/
def getField (rowLower : CsvRow) : List String → Option ℚ
  | [] => none
  | key :: rest =>
    match getKey rowLower key with
    | some (some v) =>
      if v = "" then getField rowLower rest
      else
        match parseFloat v with
        | some q => some q
        | none => getField rowLower rest
    | _ => getField rowLower rest

/-- An absolute bounding box as stored by the converter (exact rationals for
Python floats). -/
structure Box where
  x : ℚ
  y : ℚ
  width : ℚ
  height : ℚ
deriving DecidableEq, Repr

/-- Model of the per-row body of `_parse_csv_boxes` (lines 49-74): resolve the
four geometry fields through their alias lists; the row contributes a box only
when all four resolve. -/
def rowToBox (row : CsvRow) : Option Box :=
  let rl := dictLower row
  match getField rl ["x", "xc", "x_center"], getField rl ["y", "yc", "y_center"],
        getField rl ["w", "width", "dx"], getField rl ["h", "height", "dy"] with
  | some x, some y, some w, some h => some ⟨x, y, w, h⟩
  | _, _, _, _ => none

/-- The observable states of a per-image CSV file at the file-system boundary:
absent, present but unopenable or undecodable, present but empty (DictReader
reports `fieldnames is None`), or a readable table of rows. -/
inductive CsvSource where
  | missing
  | unreadable
  | noHeader
  | table (rows : List CsvRow)

/-- Model of `convert_to_coco.py:_parse_csv_boxes` (lines 35-76).  The
function body has no exception handler, so an open or decode failure on a
file that exists propagates to the caller (`.error`); a missing file and an
empty file both yield an empty list. -/
def parse_csv_boxes : CsvSource → Except String (List Box)
  | .missing => .ok []
  | .unreadable => .error "IOError: could not read csv file"
  | .noHeader => .ok []
  | .table rows => .ok (rows.filterMap rowToBox)

/-- Truncation of a rational toward zero, modelling Python `int(float)`. -/
def ratTrunc (q : ℚ) : ℤ := q.num / (q.den : ℤ)

/-- Output tuple of `yolo_to_absolute`: absolute top-left box plus 1-based
label. -/
structure YoloOut where
  x : ℚ
  y : ℚ
  width : ℚ
  height : ℚ
  label : ℤ
deriving DecidableEq, Repr

/-- Model of `convert_yolo_to_csv.py:yolo_to_absolute` (lines 13-33):
normalized center-form box to absolute top-left form, clamped to image
bounds, with the 0-based class id shifted to 1-based. -/
def yolo_to_absolute (class_id cx cy w h : ℚ) (img_width img_height : ℕ) : YoloOut :=
  let W : ℚ := img_width
  let H : ℚ := img_height
  let center_x_abs := cx * W
  let center_y_abs := cy * H
  let width_abs := w * W
  let height_abs := h * H
  let x0 := center_x_abs - width_abs / 2
  let y0 := center_y_abs - height_abs / 2
  let x := max 0 (min x0 (W - 1))
  let y := max 0 (min y0 (H - 1))
  let width_abs2 := min width_abs (W - x)
  let height_abs2 := min height_abs (H - y)
  ⟨x, y, width_abs2, height_abs2, ratTrunc class_id + 1⟩

/-- A 3-dimensional instance-mask array of shape (height, width, channels),
as loaded from an NPZ file; `pix r c ch` is the value at row `r`, column `c`,
channel `ch`. -/
structure Mask3 where
  height : ℕ
  width : ℕ
  channels : ℕ
  pix : ℕ → ℕ → ℕ → ℕ

/-- Foreground pixel count of one channel: `np.sum(mask_array, axis=(0, 1))`
at index `ch` (`convert_npz_to_png.py` line 39). -/
def channelArea (m : Mask3) (ch : ℕ) : ℕ :=
  ∑ r ∈ Finset.range m.height, ∑ c ∈ Finset.range m.width, m.pix r c ch

/-- The per-channel area vector `channel_areas` of `convert_npz_to_png.py`
line 39. -/
def channelAreas (m : Mask3) : List ℕ := (List.range m.channels).map (channelArea m)

/-- Model of `np.argmax` on a 1-dimensional array: the lowest index attaining
the maximum value (`convert_npz_to_png.py` line 40). -/
def argmaxIdx : List ℕ → ℕ
  | [] => 0
  | x :: xs => if xs.all (fun y => y ≤ x) then 0 else argmaxIdx xs + 1

/-- Pixel scaling `astype(np.uint8) * 255` with uint8 wraparound
(`convert_npz_to_png.py` lines 33, 36, 41); on the binary 0/1 masks of this
data set it maps 0 to 0 and 1 to 255. -/
def scale8 (v : ℕ) : ℕ := 255 * (v % 256) % 256

/-- Model of the `try`-block body of `convert_npz_to_png.py:convert_npz_to_png`
(lines 31-43): reduce a loaded multi-channel mask under the named policy;
`.error` models an exception (the explicit `ValueError` for an unknown
method, or numpy's error on an empty channel axis). -/
def reduceMask (method : String) (m : Mask3) : Except String (ℕ → ℕ → ℕ) :=
  if method = "merge" then
    if m.channels = 0 then .error "zero-size array to reduction operation"
    else .ok fun r c => scale8 (((List.range m.channels).map (m.pix r c)).foldr max 0)
  else if method = "first" then
    if m.channels = 0 then .error "index 0 is out of bounds"
    else .ok fun r c => scale8 (m.pix r c 0)
  else if method = "max" then
    if m.channels = 0 then .error "attempt to get argmax of an empty sequence"
    else .ok fun r c => scale8 (m.pix r c (argmaxIdx (channelAreas m)))
  else .error ("Unknown method: " ++ method)

/-- Model of `convert_npz_to_png.py:convert_npz_to_png` (lines 15-52) as seen
by its caller.  The whole body sits inside `try/except Exception`, so no
exception escapes: the result is always `.ok (mask?, flag)` where `mask?` is
the produced output (`none` when nothing was produced) and `flag` is the
boolean return value.  A `.error` result would model an exception propagating
to the caller; this function never produces one. -/
def convert_npz_to_png (method : String) (m : Mask3) :
    Except String (Option (ℕ → ℕ → ℕ) × Bool) :=
  match reduceMask method m with
  | .ok mask => .ok (some mask, true)
  | .error _ => .ok (none, false)

/-- One image record of the assembled COCO collection
(`convert_to_coco.py` lines 113-118); `stem` is the image's base name, from
which `file_name` is derived. -/
structure CocoImage where
  id : ℕ
  stem : String
  width : ℕ
  height : ℕ
deriving DecidableEq, Repr

/-- One annotation record of the assembled COCO collection
(`convert_to_coco.py` lines 122-129). -/
structure CocoAnn where
  id : ℕ
  image_id : ℕ
  category_id : ℕ
  bbox : Box
  area : ℚ
  iscrowd : ℕ
deriving DecidableEq, Repr

/-- Environment of `_collect_annotations_for_split`: the split's image stems
(the split-file list, or the glob fallback), the image-file resolver (a stem
maps to pixel dimensions when a `.jpg` or `.png` exists; image decoding is
the external capability assumed by the spec), and the per-stem CSV source. -/
structure SplitEnv where
  stems : List String
  img : String → Option (ℕ × ℕ)
  csv : String → CsvSource

/-- The annotations emitted for one image (`convert_to_coco.py` lines
121-130): one record per parsed box, in parse order, ids assigned from
`annId` upward, `category_id` fixed at 1, area recomputed as width × height,
crowd flag 0. -/
def annsFor (image_id : ℕ) : ℕ → List Box → List CocoAnn
  | _, [] => []
  | annId, b :: rest =>
    { id := annId, image_id := image_id, category_id := 1, bbox := b,
      area := b.width * b.height, iscrowd := 0 } :: annsFor image_id (annId + 1) rest

/-- The main loop of `_collect_annotations_for_split` (lines 104-132) over an
explicit stem list, threading the two counters: a stem without a resolvable
image file is skipped entirely; otherwise one image record is appended, its
CSV is parsed, and one annotation per box is appended. -/
def collectLoop (env : SplitEnv) : List String → ℕ → ℕ →
    Except String (List CocoImage × List CocoAnn)
  | [], _, _ => .ok ([], [])
  | stem :: rest, imgId, annId =>
    match env.img stem with
    | none => collectLoop env rest imgId annId
    | some (w, h) =>
      match parse_csv_boxes (env.csv stem) with
      | .error e => .error e
      | .ok boxes =>
        match collectLoop env rest (imgId + 1) (annId + boxes.length) with
        | .error e => .error e
        | .ok (imgs, anns) =>
          .ok (⟨imgId, stem, w, h⟩ :: imgs, annsFor imgId annId boxes ++ anns)

/-- The deterministic processing order of `_collect_annotations_for_split`:
`sorted(image_stems)` where `image_stems` is a set (line 104). -/
def sortedStems (env : SplitEnv) : List String := pySorted env.stems.dedup

/-- Model of `convert_to_coco.py:_collect_annotations_for_split` (lines
79-134): images in sorted stem order, both id counters starting at 1, plus
the fixed single-category list. -/
def collect_annotations_for_split (env : SplitEnv) :
    Except String (List CocoImage × List CocoAnn × List (ℕ × String)) :=
  match collectLoop env (sortedStems env) 1 1 with
  | .error e => .error e
  | .ok (imgs, anns) => .ok (imgs, anns, [(1, "grape")])

/-- The BoundingBox invariant of spec §3, relative to the owning image's
pixel dimensions. -/
def bboxInvariant (b : Box) (imgW imgH : ℕ) : Prop :=
  0 ≤ b.x ∧ 0 ≤ b.y ∧ b.x + b.width ≤ (imgW : ℚ) ∧ b.y + b.height ≤ (imgH : ℚ) ∧
    0 < b.width ∧ 0 < b.height

instance (b : Box) (imgW imgH : ℕ) : Decidable (bboxInvariant b imgW imgH) := by
  unfold bboxInvariant; infer_instance

/-- The sorted candidate list of `organize_dataset.py:main` (lines 61-64):
`sorted(train_images - test_images)`, with the Python sets modelled by
de-duplicated lists. -/
def train_candidates (declared_train declared_test : List String) : List String :=
  pySorted ((declared_train.dedup).filter (fun s => !(declared_test.contains s)))

/-- Validation prefix size of `organize_dataset.py:main` (line 65):
`max(1, int(len(train_list) * 0.2))`.  Python's `int(...)` truncates, and
`int(n * 0.2)` equals `n / 5` in integer arithmetic, so the floor is modelled
by natural division. -/
def val_size (n : ℕ) : ℕ := max 1 (n / 5)

/-- The split-list files written by `organize_dataset.py:main` (lines 70-92),
each sorted as written. -/
structure SetsOut where
  train : List String
  val : List String
  test : List String
  train_val : List String
deriving DecidableEq, Repr

/-- Model of the split allocation of `organize_dataset.py:main` (lines
44-92): `test` is the declared test set verbatim, candidates are declared
train minus declared test, `val` is the first `val_size` candidates in
sorted order, `train` the remainder, `train_val` their sorted union. -/
def organize_sets (declared_train declared_test : List String) : SetsOut :=
  let train_list := train_candidates declared_train declared_test
  let vs := val_size train_list.length
  let val_list := train_list.take vs
  let train_final := train_list.drop vs
  { train := pySorted train_final
    val := pySorted val_list
    test := pySorted declared_test.dedup
    train_val := pySorted (train_final ++ val_list) }

/-- A JSON value, for the documents handled by
`add_berry_counts_to_json.py`. -/
inductive JVal where
  | jnum (n : ℤ) : JVal
  | jstr (s : String) : JVal
  | jbool (b : Bool) : JVal
  | jnull : JVal
  | jarr (items : List JVal) : JVal
  | jobj (fields : List (String × JVal)) : JVal

/-- Model of `add_berry_counts_to_json.py:add_berry_count_to_json` (lines
26-52), acting on a loaded JSON document (a top-level object).  The first
image record's `berry_count` is set (both branches of the source's `if`
assign it); the info block's `berry_count` is set only when absent.  `.error`
models a `TypeError` on a document whose `images` or `info` field has the
wrong shape; the source's surrounding `try/except` is not modelled here
because the claims concern the transformation on well-formed documents. -/
def add_berry_count_to_json (data : List (String × JVal)) (berry_count : ℤ) :
    Except String (List (String × JVal)) :=
  let step1 : Except String (List (String × JVal)) :=
    match getKey data "images" with
    | some (JVal.jarr (first :: rest)) =>
      match first with
      | JVal.jobj f0 =>
        .ok (setKey data "images"
          (JVal.jarr (JVal.jobj (setKey f0 "berry_count" (JVal.jnum berry_count)) :: rest)))
      | _ => .error "TypeError"
    | some (JVal.jarr []) => .ok data
    | some _ => .error "TypeError"
    | none => .ok data
  match step1 with
  | .error e => .error e
  | .ok d1 =>
    match getKey d1 "info" with
    | some (JVal.jobj fi) =>
      if hasKey fi "berry_count" then .ok d1
      else .ok (setKey d1 "info" (JVal.jobj (setKey fi "berry_count" (JVal.jnum berry_count))))
    | some _ => .error "TypeError"
    | none => .ok d1

/-- Validation prefix size as the spec words it (§4.5): `ceil(0.2 × n)` with
minimum 1 when the candidate set is non-empty.  This definition follows the
SPEC's words, for comparison against `val_size`, which follows the source. -/
def spec_val_size (n : ℕ) : ℕ := if n = 0 then 0 else max 1 ((n + 4) / 5)

/-- Arithmetic core of the clamping step: after shrinking the extent to
`min v (bound - a)`, the box cannot reach past `bound`. -/
theorem add_min_sub_le (v bound a : ℚ) : a + min v (bound - a) ≤ bound := by
  have h := min_le_right v (bound - a)
  linarith

/-- C2: for every normalized box with `cx, cy, w, h ∈ [0, 1]` and integer
image size `W ≥ 1`, `H ≥ 1`, the output of the geometry conversion satisfies
`0 ≤ x`, `0 ≤ y`, `x + width ≤ W` and `y + height ≤ H`. -/
theorem yolo_to_absolute_in_bounds (class_id cx cy w h : ℚ) (img_width img_height : ℕ)
    (hcx0 : 0 ≤ cx) (hcx1 : cx ≤ 1) (hcy0 : 0 ≤ cy) (hcy1 : cy ≤ 1)
    (hw0 : 0 ≤ w) (hw1 : w ≤ 1) (hh0 : 0 ≤ h) (hh1 : h ≤ 1)
    (hW : 1 ≤ img_width) (hH : 1 ≤ img_height) :
    0 ≤ (yolo_to_absolute class_id cx cy w h img_width img_height).x ∧
    0 ≤ (yolo_to_absolute class_id cx cy w h img_width img_height).y ∧
    (yolo_to_absolute class_id cx cy w h img_width img_height).x +
      (yolo_to_absolute class_id cx cy w h img_width img_height).width ≤ (img_width : ℚ) ∧
    (yolo_to_absolute class_id cx cy w h img_width img_height).y +
      (yolo_to_absolute class_id cx cy w h img_width img_height).height ≤ (img_height : ℚ) := by
  unfold yolo_to_absolute
  refine ⟨le_max_left _ _, le_max_left _ _, add_min_sub_le _ _ _, add_min_sub_le _ _ _⟩

/-- C2 witness: the theorem instantiated at the box (0.5, 0.5, 0.2, 0.25) on
a 1000 × 800 image. -/
theorem yolo_to_absolute_in_bounds_witness :
    0 ≤ (yolo_to_absolute 0 (1/2) (1/2) (1/5) (1/4) 1000 800).x ∧
    0 ≤ (yolo_to_absolute 0 (1/2) (1/2) (1/5) (1/4) 1000 800).y ∧
    (yolo_to_absolute 0 (1/2) (1/2) (1/5) (1/4) 1000 800).x +
      (yolo_to_absolute 0 (1/2) (1/2) (1/5) (1/4) 1000 800).width ≤ ((1000 : ℕ) : ℚ) ∧
    (yolo_to_absolute 0 (1/2) (1/2) (1/5) (1/4) 1000 800).y +
      (yolo_to_absolute 0 (1/2) (1/2) (1/5) (1/4) 1000 800).height ≤ ((800 : ℕ) : ℚ) :=
  yolo_to_absolute_in_bounds 0 (1/2) (1/2) (1/5) (1/4) 1000 800
    (by norm_num) (by norm_num) (by norm_num) (by norm_num)
    (by norm_num) (by norm_num) (by norm_num) (by norm_num)
    (by norm_num) (by norm_num)

/-- C4 counterexample: calling the mask reducer with the unknown policy name
"bogus" does NOT raise an error to the caller — the internal `ValueError` is
caught by the function's own `except` handler, and the caller observes a
normal `False` return with no output mask produced. -/
theorem convert_npz_unknown_method_not_raised :
    convert_npz_to_png "bogus" ⟨1, 1, 1, fun _ _ _ => 1⟩ = .ok (none, false) ∧
    (convert_npz_to_png "bogus" ⟨1, 1, 1, fun _ _ _ => 1⟩).isOk = true := by
  exact ⟨rfl, rfl⟩

/-- C4 amended: for every policy name other than "merge", "first" and "max",
the mask reducer produces no per-item output and reports failure by a `False`
return value (the internal invalid-argument `ValueError` is caught by the
function's own handler, so no exception reaches the caller); there is no
silent fallback to a default policy. -/
theorem convert_npz_unknown_method (method : String) (m : Mask3)
    (h1 : method ≠ "merge") (h2 : method ≠ "first") (h3 : method ≠ "max") :
    convert_npz_to_png method m = .ok (none, false) := by
  unfold convert_npz_to_png reduceMask
  simp [h1, h2, h3]

/-- C4 witness: the amended theorem at the policy name "bogus" and a concrete
1 × 1 × 1 mask. -/
theorem convert_npz_unknown_method_witness :
    convert_npz_to_png "bogus" ⟨1, 1, 1, fun _ _ _ => 0⟩ = .ok (none, false) :=
  convert_npz_unknown_method "bogus" ⟨1, 1, 1, fun _ _ _ => 0⟩
    (by decide) (by decide) (by decide)

/-- C9 counterexample: a present-but-unreadable CSV source does not yield an
empty box list — the open/decode failure propagates to the caller as an
error, because `_parse_csv_boxes` has no exception handler. -/
theorem parse_csv_boxes_unreadable_raises :
    parse_csv_boxes CsvSource.unreadable = .error "IOError: could not read csv file" := rfl

/-- C9 amended: a missing CSV source file yields an empty box list rather
than a failure, while a present-but-unreadable file is NOT handled: its error
reaches the caller. -/
theorem parse_csv_boxes_missing_empty :
    parse_csv_boxes CsvSource.missing = .ok ([] : List Box) ∧
    (parse_csv_boxes CsvSource.unreadable).isOk = false := ⟨rfl, rfl⟩

/-- C3 counterexample: for declared_train = {A,...,F} and declared_test = ∅
there are 6 candidates; the spec's `ceil(0.2 × 6)` is 2, but the code's
`max(1, int(6 * 0.2))` truncates to 1, so val is ["A"], not a prefix of
length 2. -/
theorem organize_sets_val_not_ceil :
    (organize_sets ["A", "B", "C", "D", "E", "F"] []).val = ["A"] ∧
    spec_val_size 6 = 2 ∧
    ((organize_sets ["A", "B", "C", "D", "E", "F"] []).val).length ≠ spec_val_size 6 := by
  refine ⟨by decide, by decide, by decide⟩

/-- Sortedness of the candidate list produced by `train_candidates`. -/
theorem train_candidates_sorted (dt dte : List String) :
    List.Sorted strOrd (train_candidates dt dte) :=
  List.sorted_insertionSort strOrd _

/-- The candidate list has no duplicates (it models a Python set). -/
theorem train_candidates_nodup (dt dte : List String) :
    (train_candidates dt dte).Nodup :=
  (List.perm_insertionSort strOrd _).nodup_iff.mpr ((List.nodup_dedup dt).filter _)

/-- C3 amended: the split allocator sorts declared_train − declared_test
lexicographically and takes as val a prefix of length
`max(1, floor(0.2 × n))` — Python `int` truncation, NOT ceiling — with the
remainder as train; in particular for declared_train = {A,B,C,D,E} and
declared_test = {E}, val = {A} and train = {B,C,D}. -/
theorem organize_sets_val_is_truncated_fifth :
    (∀ dt dte,
      (organize_sets dt dte).val =
        (train_candidates dt dte).take (val_size (train_candidates dt dte).length) ∧
      (organize_sets dt dte).train =
        (train_candidates dt dte).drop (val_size (train_candidates dt dte).length)) ∧
    (organize_sets ["A", "B", "C", "D", "E"] ["E"]).val = ["A"] ∧
    (organize_sets ["A", "B", "C", "D", "E"] ["E"]).train = ["B", "C", "D"] := by
  refine ⟨fun dt dte => ?_, by decide, by decide⟩
  have hs := train_candidates_sorted dt dte
  constructor
  · exact List.Sorted.insertionSort_eq
      (hs.sublist (List.take_sublist _ _))
  · exact List.Sorted.insertionSort_eq
      (hs.sublist (List.drop_sublist _ _))

/-- C5: for every pair of declared name lists, including empty ones, the
allocated splits satisfy train ∩ val = ∅, train ∩ test = ∅, val ∩ test = ∅,
and train_val is the sorted duplicate-free union of train and val. -/
theorem organize_sets_disjoint (dt dte : List String) :
    (∀ s, s ∈ (organize_sets dt dte).train → s ∉ (organize_sets dt dte).val) ∧
    (∀ s, s ∈ (organize_sets dt dte).train → s ∉ (organize_sets dt dte).test) ∧
    (∀ s, s ∈ (organize_sets dt dte).val → s ∉ (organize_sets dt dte).test) ∧
    (∀ s, s ∈ (organize_sets dt dte).train_val ↔
      s ∈ (organize_sets dt dte).train ∨ s ∈ (organize_sets dt dte).val) ∧
    List.Perm (organize_sets dt dte).train_val
      ((organize_sets dt dte).train ++ (organize_sets dt dte).val) ∧
    List.Sorted strOrd (organize_sets dt dte).train_val ∧
    (organize_sets dt dte).train_val.Nodup := by
  have hnd := train_candidates_nodup dt dte
  have hdj : List.Disjoint
      ((train_candidates dt dte).take (val_size (train_candidates dt dte).length))
      ((train_candidates dt dte).drop (val_size (train_candidates dt dte).length)) :=
    List.disjoint_take_drop hnd le_rfl
  have hmem_tc : ∀ s, s ∈ train_candidates dt dte → s ∉ dte := by
    intro s hstc hmem
    have h1 : s ∈ dt.dedup.filter (fun t => !(dte.contains t)) :=
      (List.perm_insertionSort strOrd _).mem_iff.mp hstc
    have h2 := (List.mem_filter.mp h1).2
    have h3 : dte.contains s = true := List.elem_iff.mpr hmem
    simp only [h3, Bool.not_true] at h2
    exact Bool.false_ne_true h2
  refine ⟨?_, ?_, ?_, ?_, ?_, List.sorted_insertionSort strOrd _, ?_⟩
  · intro s htr hva
    have h1 : s ∈ (train_candidates dt dte).drop (val_size (train_candidates dt dte).length) :=
      (List.perm_insertionSort strOrd _).mem_iff.mp htr
    have h2 : s ∈ (train_candidates dt dte).take (val_size (train_candidates dt dte).length) :=
      (List.perm_insertionSort strOrd _).mem_iff.mp hva
    exact hdj h2 h1
  · intro s htr hte
    have h1 : s ∈ (train_candidates dt dte).drop (val_size (train_candidates dt dte).length) :=
      (List.perm_insertionSort strOrd _).mem_iff.mp htr
    have h2 : s ∈ dte.dedup := (List.perm_insertionSort strOrd _).mem_iff.mp hte
    exact hmem_tc s (List.mem_of_mem_drop h1) (List.mem_dedup.mp h2)
  · intro s hva hte
    have h1 : s ∈ (train_candidates dt dte).take (val_size (train_candidates dt dte).length) :=
      (List.perm_insertionSort strOrd _).mem_iff.mp hva
    have h2 : s ∈ dte.dedup := (List.perm_insertionSort strOrd _).mem_iff.mp hte
    exact hmem_tc s (List.mem_of_mem_take h1) (List.mem_dedup.mp h2)
  · intro s
    constructor
    · intro h
      have h1 := (List.perm_insertionSort strOrd _).mem_iff.mp h
      rcases List.mem_append.mp h1 with h2 | h2
      · exact Or.inl ((List.perm_insertionSort strOrd _).mem_iff.mpr h2)
      · exact Or.inr ((List.perm_insertionSort strOrd _).mem_iff.mpr h2)
    · intro h
      refine (List.perm_insertionSort strOrd _).mem_iff.mpr (List.mem_append.mpr ?_)
      rcases h with h2 | h2
      · exact Or.inl ((List.perm_insertionSort strOrd _).mem_iff.mp h2)
      · exact Or.inr ((List.perm_insertionSort strOrd _).mem_iff.mp h2)
  · exact (List.perm_insertionSort strOrd _).trans
      (List.Perm.append (List.perm_insertionSort strOrd _).symm
        (List.perm_insertionSort strOrd _).symm)
  · refine (List.perm_insertionSort strOrd _).nodup_iff.mpr ?_
    exact List.Nodup.append (hnd.sublist (List.drop_sublist _ _))
      (hnd.sublist (List.take_sublist _ _)) (fun a ha hb => hdj hb ha)

/-- An argmax index is always a valid index of a non-empty list. -/
theorem argmaxIdx_lt_length (l : List ℕ) (h : l ≠ []) : argmaxIdx l < l.length := by
  induction l with
  | nil => exact absurd rfl h
  | cons x xs ih =>
    unfold argmaxIdx
    by_cases hall : xs.all (fun y => y ≤ x) = true
    · simp [hall]
    · rw [if_neg hall]
      simp only [List.length_cons, Nat.add_lt_add_iff_right]
      apply ih
      intro he
      subst he
      simp at hall

/-- The value at the argmax index is a maximum of the list. -/
theorem argmaxIdx_is_max (l : List ℕ) :
    ∀ j, j < l.length → l.getD j 0 ≤ l.getD (argmaxIdx l) 0 := by
  induction l with
  | nil => intro j hj; simp at hj
  | cons x xs ih =>
    intro j hj
    unfold argmaxIdx
    by_cases hall : xs.all (fun y => y ≤ x) = true
    · rw [if_pos hall]
      cases j with
      | zero => simp
      | succ k =>
        simp only [List.getD_cons_succ, List.getD_cons_zero]
        have hk : k < xs.length := by simpa using hj
        have hmem : xs.getD k 0 ∈ xs := by
          rw [List.getD_eq_getElem xs 0 hk]
          exact List.getElem_mem hk
        simpa using List.all_eq_true.mp hall _ hmem
    · rw [if_neg hall]
      have hex : ∃ y ∈ xs, x < y := by
        have h := hall
        rw [List.all_eq_true] at h
        push_neg at h
        rcases h with ⟨y, hy, hyx⟩
        simp at hyx
        exact ⟨y, hy, hyx⟩
      rcases hex with ⟨y, hy, hxy⟩
      rcases List.mem_iff_getElem.mp hy with ⟨i, hi, rfl⟩
      have hmax := ih i hi
      rw [List.getD_eq_getElem xs 0 hi] at hmax
      cases j with
      | zero =>
        simp only [List.getD_cons_zero, List.getD_cons_succ]
        exact le_trans (le_of_lt hxy) hmax
      | succ k =>
        simp only [List.getD_cons_succ]
        exact ih k (by simpa using hj)

/-- Below the argmax index every value is strictly smaller: the argmax is the
FIRST occurrence of the maximum. -/
theorem argmaxIdx_first_occurrence (l : List ℕ) :
    ∀ j, j < argmaxIdx l → l.getD j 0 < l.getD (argmaxIdx l) 0 := by
  induction l with
  | nil => intro j hj; simp [argmaxIdx] at hj
  | cons x xs ih =>
    intro j hj
    unfold argmaxIdx at hj ⊢
    by_cases hall : xs.all (fun y => y ≤ x) = true
    · rw [if_pos hall] at hj; exact absurd hj (Nat.not_lt_zero j)
    · rw [if_neg hall] at hj ⊢
      have hex : ∃ y ∈ xs, x < y := by
        have h := hall
        rw [List.all_eq_true] at h
        push_neg at h
        rcases h with ⟨y, hy, hyx⟩
        simp at hyx
        exact ⟨y, hy, hyx⟩
      cases j with
      | zero =>
        rcases hex with ⟨y, hy, hxy⟩
        rcases List.mem_iff_getElem.mp hy with ⟨i, hi, rfl⟩
        have hmax := argmaxIdx_is_max xs i hi
        rw [List.getD_eq_getElem xs 0 hi] at hmax
        simp only [List.getD_cons_zero, List.getD_cons_succ]
        exact lt_of_lt_of_le hxy hmax
      | succ k =>
        simp only [List.getD_cons_succ]
        exact ih k (by simpa using hj)

/-- The area vector has one entry per channel. -/
theorem channelAreas_length (m : Mask3) : (channelAreas m).length = m.channels := by
  simp [channelAreas]

/-- Entry `j` of the area vector is the area of channel `j`. -/
theorem channelAreas_getD (m : Mask3) (j : ℕ) (hj : j < m.channels) :
    (channelAreas m).getD j 0 = channelArea m j := by
  unfold channelAreas
  rw [List.getD_eq_getElem _ 0 (by simpa using hj)]
  simp

/-- C7: on a non-empty 0/1 mask, the "max" policy outputs (scaled to 0/255)
the channel at the argmax index, which is a valid channel whose foreground
pixel count is maximal, and every channel of lower index has a strictly
smaller count (ties are broken by the lowest channel index). -/
theorem reduceMask_max_selects_largest_channel (m : Mask3) (hc : 0 < m.channels)
    (hbin : ∀ r c ch, r < m.height → c < m.width → ch < m.channels →
      m.pix r c ch = 0 ∨ m.pix r c ch = 1) :
    reduceMask "max" m =
      .ok (fun r c => scale8 (m.pix r c (argmaxIdx (channelAreas m)))) ∧
    argmaxIdx (channelAreas m) < m.channels ∧
    (∀ j, j < m.channels →
      channelArea m j ≤ channelArea m (argmaxIdx (channelAreas m))) ∧
    (∀ j, j < argmaxIdx (channelAreas m) →
      channelArea m j < channelArea m (argmaxIdx (channelAreas m))) := by
  have hne : channelAreas m ≠ [] := by
    intro h
    rw [← channelAreas_length m, h] at hc
    exact Nat.lt_irrefl 0 hc
  have hidx : argmaxIdx (channelAreas m) < m.channels := by
    rw [← channelAreas_length m]
    exact argmaxIdx_lt_length _ hne
  refine ⟨?_, hidx, ?_, ?_⟩
  · unfold reduceMask
    rw [if_neg (by decide), if_neg (by decide), if_pos rfl, if_neg hc.ne']
  · intro j hj
    have h := argmaxIdx_is_max (channelAreas m) j (by rwa [channelAreas_length])
    rwa [channelAreas_getD m j hj, channelAreas_getD m _ hidx] at h
  · intro j hj
    have h := argmaxIdx_first_occurrence (channelAreas m) j hj
    have hjc : j < m.channels := lt_trans hj hidx
    rwa [channelAreas_getD m j hjc, channelAreas_getD m _ hidx] at h

/-- C7 witness: the theorem applied to a concrete 1 × 2 mask with two
channels, channel 1 all-foreground. -/
theorem reduceMask_max_witness :
    argmaxIdx (channelAreas ⟨1, 2, 2, fun _ _ ch => if ch = 1 then 1 else 0⟩) < 2 ∧
    (∀ j, j < 2 →
      channelArea ⟨1, 2, 2, fun _ _ ch => if ch = 1 then 1 else 0⟩ j ≤
      channelArea ⟨1, 2, 2, fun _ _ ch => if ch = 1 then 1 else 0⟩
        (argmaxIdx (channelAreas ⟨1, 2, 2, fun _ _ ch => if ch = 1 then 1 else 0⟩))) :=
  ⟨(reduceMask_max_selects_largest_channel ⟨1, 2, 2, fun _ _ ch => if ch = 1 then 1 else 0⟩
      (by decide) (fun r c ch _ _ _ => by by_cases h : ch = 1 <;> simp [h])).2.1,
   (reduceMask_max_selects_largest_channel ⟨1, 2, 2, fun _ _ ch => if ch = 1 then 1 else 0⟩
      (by decide) (fun r c ch _ _ _ => by by_cases h : ch = 1 <;> simp [h])).2.2.1⟩

/-- The boxes the assembler will use for a stem: the parse result on success,
nothing on failure (on the failure path the whole assembly aborts anyway). -/
def boxesOf (env : SplitEnv) (stem : String) : List Box :=
  ((parse_csv_boxes (env.csv stem)).toOption).getD []

/-- One annotation record per box, ids consecutive from the start counter. -/
theorem annsFor_map_id (image_id : ℕ) (bs : List Box) :
    ∀ a, (annsFor image_id a bs).map (fun x => x.id) = List.range' a bs.length := by
  induction bs with
  | nil => intro a; rfl
  | cons b rest ih =>
    intro a
    simp only [annsFor, List.map_cons, List.length_cons, List.range'_succ]
    rw [ih (a + 1)]

/-- `annsFor` emits exactly one record per box. -/
theorem annsFor_length (image_id a : ℕ) (bs : List Box) :
    (annsFor image_id a bs).length = bs.length := by
  have h := congrArg List.length (annsFor_map_id image_id bs a)
  simpa using h

/-- Every record emitted by `annsFor` carries the given image id and one of
the given boxes verbatim. -/
theorem annsFor_mem (image_id : ℕ) (bs : List Box) :
    ∀ a ann, ann ∈ annsFor image_id a bs →
      ann.image_id = image_id ∧ ann.bbox ∈ bs ∧ ann.category_id = 1 ∧
      ann.iscrowd = 0 ∧ ann.area = ann.bbox.width * ann.bbox.height := by
  induction bs with
  | nil => intro a ann h; exact absurd h (List.not_mem_nil ann)
  | cons b rest ih =>
    intro a ann h
    rcases List.mem_cons.mp h with h1 | h1
    · subst h1
      exact ⟨rfl, List.mem_cons_self b rest, rfl, rfl, rfl⟩
    · have := ih (a + 1) ann h1
      exact ⟨this.1, List.mem_cons_of_mem b this.2.1, this.2.2⟩

/-- Invariants of the assembler's main loop on the success path: image ids
are consecutive from the image counter, annotation ids consecutive from the
annotation counter, the image stems are the input stems with unresolvable
images filtered out (in order), every image's dimensions come from the image
resolver, and every annotation points at an emitted image and carries one of
that image's parsed boxes verbatim. -/
theorem collectLoop_spec (env : SplitEnv) (stems : List String) :
    ∀ i a imgs anns, collectLoop env stems i a = .ok (imgs, anns) →
      imgs.map (fun x => x.id) = List.range' i imgs.length ∧
      anns.map (fun x => x.id) = List.range' a anns.length ∧
      imgs.map (fun x => x.stem) = stems.filter (fun s => (env.img s).isSome) ∧
      (∀ img ∈ imgs, env.img img.stem = some (img.width, img.height)) ∧
      (∀ ann ∈ anns, ∃ img ∈ imgs, ann.image_id = img.id ∧
        ann.bbox ∈ boxesOf env img.stem ∧ ann.category_id = 1 ∧ ann.iscrowd = 0 ∧
        ann.area = ann.bbox.width * ann.bbox.height) := by
  induction stems with
  | nil =>
    intro i a imgs anns h
    have h1 : imgs = [] ∧ anns = [] := by
      unfold collectLoop at h
      cases h
      exact ⟨rfl, rfl⟩
    rcases h1 with ⟨rfl, rfl⟩
    refine ⟨rfl, rfl, rfl, ?_, ?_⟩
    · intro img h; exact absurd h (List.not_mem_nil img)
    · intro ann h; exact absurd h (List.not_mem_nil ann)
  | cons stem rest ih =>
    intro i a imgs anns h
    unfold collectLoop at h
    cases himg : env.img stem with
    | none =>
      rw [himg] at h
      have hr := ih i a imgs anns h
      refine ⟨hr.1, hr.2.1, ?_, hr.2.2.2.1, hr.2.2.2.2⟩
      rw [List.filter_cons_of_neg (by simp [himg])]
      exact hr.2.2.1
    | some wh =>
      rw [himg] at h
      cases wh with
      | mk w hgt =>
        dsimp only at h
        cases hparse : parse_csv_boxes (env.csv stem) with
        | error e => rw [hparse] at h; exact absurd h (by simp)
        | ok boxes =>
          rw [hparse] at h
          dsimp only at h
          cases hrec : collectLoop env rest (i + 1) (a + boxes.length) with
          | error e => rw [hrec] at h; exact absurd h (by simp)
          | ok p =>
            cases p with
            | mk imgs' anns' =>
              rw [hrec] at h
              dsimp only at h
              have hres : imgs = ⟨i, stem, w, hgt⟩ :: imgs' ∧
                  anns = annsFor i a boxes ++ anns' := by
                cases h; exact ⟨rfl, rfl⟩
              rcases hres with ⟨rfl, rfl⟩
              have hr := ih (i + 1) (a + boxes.length) imgs' anns' hrec
              have hboxesOf : boxesOf env stem = boxes := by
                unfold boxesOf; rw [hparse]; rfl
              refine ⟨?_, ?_, ?_, ?_, ?_⟩
              · simp only [List.map_cons, List.length_cons, List.range'_succ]
                rw [hr.1]
              · rw [List.map_append, hr.2.1, annsFor_map_id,
                  List.length_append, annsFor_length]
                have := List.range'_append a boxes.length anns'.length 1
                simpa [Nat.add_comm] using this
              · rw [List.map_cons, List.filter_cons_of_pos (by rw [himg]; rfl), hr.2.2.1]
              · intro img hm
                rcases List.mem_cons.mp hm with h1 | h1
                · subst h1; exact himg
                · exact hr.2.2.2.1 img h1
              · intro ann hm
                rcases List.mem_append.mp hm with h1 | h1
                · have ha := annsFor_mem i boxes a ann h1
                  refine ⟨⟨i, stem, w, hgt⟩, List.mem_cons_self _ _, ha.1, ?_, ha.2.2⟩
                  rw [hboxesOf]
                  exact ha.2.1
                · rcases hr.2.2.2.2 ann h1 with ⟨img, hmem, hrest⟩
                  exact ⟨img, List.mem_cons_of_mem _ hmem, hrest⟩

/-- Extraction of the loop result from a successful assembly. -/
theorem collect_ok_loop (env : SplitEnv) (imgs : List CocoImage)
    (anns : List CocoAnn) (cats : List (ℕ × String))
    (h : collect_annotations_for_split env = .ok (imgs, anns, cats)) :
    collectLoop env (sortedStems env) 1 1 = .ok (imgs, anns) := by
  unfold collect_annotations_for_split at h
  cases hl : collectLoop env (sortedStems env) 1 1 with
  | error e => rw [hl] at h; exact absurd h (by simp)
  | ok p =>
    rw [hl] at h
    cases p with
    | mk i2 a2 =>
      dsimp only at h
      injection h with hpair
      injection hpair with h1 hrest
      injection hrest with h2 h3
      subst h1
      subst h2
      rfl

/-- C6: in a successfully assembled Collection the image ids are exactly
1, 2, ... in list order and the annotation ids are exactly 1, 2, ... in list
order (each a monotonic counter starting at 1, hence strictly increasing and
unique, annotation ids increasing in image-processing order and, within an
image, in box-parse order), and the images are processed in strictly
increasing lexicographic order of base name. -/
theorem collect_ids_monotone (env : SplitEnv) (imgs : List CocoImage)
    (anns : List CocoAnn) (cats : List (ℕ × String))
    (h : collect_annotations_for_split env = .ok (imgs, anns, cats)) :
    imgs.map (fun x => x.id) = List.range' 1 imgs.length ∧
    anns.map (fun x => x.id) = List.range' 1 anns.length ∧
    List.Pairwise (fun s t => strOrd s t ∧ s ≠ t) (imgs.map (fun x => x.stem)) := by
  have hloop := collect_ok_loop env imgs anns cats h
  have hs := collectLoop_spec env (sortedStems env) 1 1 imgs anns hloop
  refine ⟨hs.1, hs.2.1, ?_⟩
  rw [hs.2.2.1]
  have hsorted : List.Pairwise strOrd (sortedStems env) :=
    List.sorted_insertionSort strOrd _
  have hnodup : (sortedStems env).Nodup :=
    (List.perm_insertionSort strOrd _).nodup_iff.mpr (List.nodup_dedup env.stems)
  exact (hsorted.and hnodup).filter _

/-- Concrete two-image environment used by witnesses: stems are given
unsorted, both images resolve to 3 × 4 pixels, there are no CSV files. -/
def envW : SplitEnv :=
  { stems := ["b", "a"]
    img := fun _ => some (3, 4)
    csv := fun _ => CsvSource.missing }

/-- C6 witness: the theorem applied to `envW`; the two images get ids 1, 2
in sorted stem order "a", "b". -/
theorem collect_ids_monotone_witness :
    [(⟨1, "a", 3, 4⟩ : CocoImage), ⟨2, "b", 3, 4⟩].map (fun x => x.id) =
      List.range' 1 ([(⟨1, "a", 3, 4⟩ : CocoImage), ⟨2, "b", 3, 4⟩].length) ∧
    ([] : List CocoAnn).map (fun x => x.id) = List.range' 1 ([] : List CocoAnn).length ∧
    List.Pairwise (fun s t => strOrd s t ∧ s ≠ t)
      ([(⟨1, "a", 3, 4⟩ : CocoImage), ⟨2, "b", 3, 4⟩].map (fun x => x.stem)) :=
  collect_ids_monotone envW [⟨1, "a", 3, 4⟩, ⟨2, "b", 3, 4⟩] [] [(1, "grape")] (by rfl)

/-- Concrete environment for the C1 counterexample: one 10 × 10 image "A"
whose CSV file contains the out-of-bounds box (−5, 0, 1000, 1000). -/
def envC1 : SplitEnv :=
  { stems := ["A"]
    img := fun s => if s = "A" then some (10, 10) else none
    csv := fun _ => CsvSource.table
      [[("x", some "-5"), ("y", some "0"),
        ("width", some "1000"), ("height", some "1000")]] }

/-- C1 counterexample: the record assembler accepts the CSV box
(−5, 0, 1000, 1000) for a 10 × 10 image verbatim — the persisted annotation
carries exactly that bounding box, which violates the BoundingBox invariant
(x < 0 and x + width > image.width).  No validation or clamping happens in
this path. -/
theorem collect_accepts_invalid_bbox :
    ((collect_annotations_for_split envC1).toOption.map
      (fun t => (t.1.map (fun i => (i.id, i.stem, i.width, i.height)),
                 t.2.1.map (fun a => (a.id, a.image_id, a.bbox))))) =
      some ([(1, "A", 10, 10)], [(1, 1, (⟨-5, 0, 1000, 1000⟩ : Box))]) ∧
    ¬ bboxInvariant ⟨-5, 0, 1000, 1000⟩ 10 10 := by
  constructor
  · rfl
  · intro hinv
    have hx := hinv.1
    norm_num at hx

/-- C1 amended: the record assembler persists each parsed CSV box verbatim,
with no bounds validation, so an accepted annotation satisfies the
BoundingBox invariant with respect to its owning image's dimensions exactly
when the parsed source box already does: under the additional assumption
that every parsed box lies within its image, every persisted annotation's
bounding box does too. -/
theorem collect_bbox_invariant_conditional (env : SplitEnv) (imgs : List CocoImage)
    (anns : List CocoAnn) (cats : List (ℕ × String))
    (h : collect_annotations_for_split env = .ok (imgs, anns, cats))
    (hgood : ∀ stem w hgt, env.img stem = some (w, hgt) →
      ∀ b ∈ boxesOf env stem, bboxInvariant b w hgt) :
    ∀ ann ∈ anns, ∃ img ∈ imgs, ann.image_id = img.id ∧
      ann.bbox ∈ boxesOf env img.stem ∧ bboxInvariant ann.bbox img.width img.height := by
  have hloop := collect_ok_loop env imgs anns cats h
  have hs := collectLoop_spec env (sortedStems env) 1 1 imgs anns hloop
  intro ann hann
  rcases hs.2.2.2.2 ann hann with ⟨img, hmem, hid, hbox, _⟩
  have hdim := hs.2.2.2.1 img hmem
  exact ⟨img, hmem, hid, hbox, hgood img.stem img.width img.height hdim ann.bbox hbox⟩

/-- Concrete one-image environment with an in-bounds CSV box, used by the
witness of the conditional invariant theorem. -/
def envC1W : SplitEnv :=
  { stems := ["a"]
    img := fun _ => some (3, 4)
    csv := fun _ => CsvSource.table
      [[("x", some "1"), ("y", some "1"), ("w", some "1"), ("h", some "1")]] }

/-- The single annotation record assembled from `envC1W`. -/
def annW : CocoAnn :=
  { id := 1, image_id := 1, category_id := 1, bbox := ⟨1, 1, 1, 1⟩,
    area := (1 : ℚ) * 1, iscrowd := 0 }

/-- C1 witness: the amended theorem applied to `envC1W`, whose single parsed
box (1, 1, 1, 1) lies inside the 3 × 4 image, instantiated at the one
assembled annotation. -/
theorem collect_bbox_invariant_conditional_witness :
    ∃ img ∈ [(⟨1, "a", 3, 4⟩ : CocoImage)], annW.image_id = img.id ∧
      annW.bbox ∈ boxesOf envC1W img.stem ∧
      bboxInvariant annW.bbox img.width img.height :=
  collect_bbox_invariant_conditional envC1W [⟨1, "a", 3, 4⟩]
    (annsFor 1 1 [⟨1, 1, 1, 1⟩]) [(1, "grape")] (by rfl)
    (by
      intro stem w hgt he b hb
      injection he with he2
      injection he2 with hw hh
      subst hw
      subst hh
      have hbs : boxesOf envC1W stem = [(⟨1, 1, 1, 1⟩ : Box)] := rfl
      rw [hbs] at hb
      have hb2 : b = (⟨1, 1, 1, 1⟩ : Box) := List.mem_singleton.mp hb
      subst hb2
      refine ⟨by norm_num, by norm_num, ?_, ?_, by norm_num, by norm_num⟩
      · show (1 : ℚ) + 1 ≤ ((3 : ℕ) : ℚ)
        push_cast
        norm_num
      · show (1 : ℚ) + 1 ≤ ((4 : ℕ) : ℚ)
        push_cast
        norm_num)
    annW (show annW ∈ annsFor 1 1 [(⟨1, 1, 1, 1⟩ : Box)] from List.mem_singleton_self annW)

/-- Renaming the keys of a row through any lower-case-preserving function
leaves the lower-cased dict unchanged. -/
theorem dictLower_key_case (f : String → String)
    (hf : ∀ s, strLower (f s) = strLower s) :
    ∀ (row : CsvRow) (acc : CsvRow),
      (row.map (fun kv => (f kv.1, kv.2))).foldl
        (fun acc kv => setKey acc (strLower kv.1) kv.2) acc =
      row.foldl (fun acc kv => setKey acc (strLower kv.1) kv.2) acc := by
  intro row
  induction row with
  | nil => intro acc; rfl
  | cons kv rest ih =>
    intro acc
    simp only [List.map_cons, List.foldl_cons]
    rw [hf kv.1]
    exact ih _

/-- A row resolves to the same box when its column names change only in
letter case. -/
theorem rowToBox_key_case (f : String → String)
    (hf : ∀ s, strLower (f s) = strLower s) (row : CsvRow) :
    rowToBox (row.map (fun kv => (f kv.1, kv.2))) = rowToBox row := by
  unfold rowToBox dictLower
  rw [dictLower_key_case f hf row]

/-- C8: the schema resolver produces the same box list when any column names
are changed only in letter case (modelled by an arbitrary renaming `f` that
preserves lower-casing, applied to every key of every row). -/
theorem parse_csv_boxes_case_insensitive (f : String → String)
    (hf : ∀ s, strLower (f s) = strLower s) (rows : List CsvRow) :
    parse_csv_boxes
      (.table (rows.map (fun row => row.map (fun kv => (f kv.1, kv.2))))) =
      parse_csv_boxes (.table rows) := by
  unfold parse_csv_boxes
  dsimp only
  congr 1
  induction rows with
  | nil => rfl
  | cons r rest ih =>
    simp only [List.map_cons, List.filterMap_cons, rowToBox_key_case f hf r, ih]

/-- C8 witness: the theorem applied to the renaming that upper-cases exactly
the column "x", on a one-row table; headers "X" and "x" resolve identically. -/
theorem parse_csv_boxes_case_insensitive_witness :
    parse_csv_boxes (.table
      [[("X", some "1"), ("y", some "2"), ("w", some "3"), ("h", some "4")]]) =
    parse_csv_boxes (.table
      [[("x", some "1"), ("y", some "2"), ("w", some "3"), ("h", some "4")]]) :=
  parse_csv_boxes_case_insensitive (fun s => if s = "x" then "X" else s)
    (fun s => by
      by_cases h : s = "x"
      · subst h; decide
      · simp [h])
    [[("x", some "1"), ("y", some "2"), ("w", some "3"), ("h", some "4")]]

/-- Updating a key makes it present with the new value. -/
theorem getKey_setKey_same {α : Type} (l : List (String × α)) (k : String) (v : α) :
    getKey (setKey l k v) k = some v := by
  induction l with
  | nil => simp [setKey, getKey]
  | cons kv rest ih =>
    cases kv with
    | mk k' v' =>
      by_cases h : k' = k
      · simp [setKey, getKey, h]
      · simp [setKey, getKey, h, ih]

/-- Updating a key leaves every other key's value unchanged. -/
theorem getKey_setKey_other {α : Type} (l : List (String × α)) (k k2 : String)
    (v : α) (h : k2 ≠ k) : getKey (setKey l k v) k2 = getKey l k2 := by
  induction l with
  | nil => simp [setKey, getKey, Ne.symm h]
  | cons kv rest ih =>
    cases kv with
    | mk k' v' =>
      by_cases h2 : k' = k
      · subst h2
        simp [setKey, getKey, Ne.symm h]
      · by_cases h3 : k' = k2
        · subst h3
          simp [setKey, getKey, h2]
        · simp [setKey, getKey, h2, h3, ih]

/-- C10: on a well-formed Collection document (top-level object whose
"images" field is a non-empty array headed by an object and whose "info"
field is an object), the berry-count enrichment changes at most the
`berry_count` field of the first image record and the `berry_count` field of
the info block: every other top-level field (annotations, categories, ...),
every other field of the first image, all remaining image records and every
other info field are unchanged. -/
theorem add_berry_count_frame (data : List (String × JVal)) (berry_count : ℤ)
    (img0 : List (String × JVal)) (restImgs : List JVal)
    (infoFields : List (String × JVal))
    (himg : getKey data "images" = some (JVal.jarr (JVal.jobj img0 :: restImgs)))
    (hinfo : getKey data "info" = some (JVal.jobj infoFields)) :
    ∃ d', add_berry_count_to_json data berry_count = .ok d' ∧
      (∀ k, k ≠ "images" → k ≠ "info" → getKey d' k = getKey data k) ∧
      ∃ img0' infoF',
        getKey d' "images" = some (JVal.jarr (JVal.jobj img0' :: restImgs)) ∧
        getKey d' "info" = some (JVal.jobj infoF') ∧
        getKey img0' "berry_count" = some (JVal.jnum berry_count) ∧
        (∀ k, k ≠ "berry_count" → getKey img0' k = getKey img0 k) ∧
        (∀ k, k ≠ "berry_count" → getKey infoF' k = getKey infoFields k) := by
  have himgs_ne_info : ("info" : String) ≠ "images" := by decide
  unfold add_berry_count_to_json
  rw [himg]
  dsimp only
  have hinfo1 : getKey (setKey data "images"
      (JVal.jarr (JVal.jobj (setKey img0 "berry_count" (JVal.jnum berry_count))
        :: restImgs))) "info" = some (JVal.jobj infoFields) := by
    rw [getKey_setKey_other data "images" "info" _ himgs_ne_info]
    exact hinfo
  rw [hinfo1]
  dsimp only
  by_cases hbc : hasKey infoFields "berry_count" = true
  · rw [if_pos hbc]
    refine ⟨_, rfl, ?_, setKey img0 "berry_count" (JVal.jnum berry_count),
      infoFields, getKey_setKey_same data "images" _, hinfo1,
      getKey_setKey_same img0 "berry_count" _, ?_, fun k _ => rfl⟩
    · intro k hk1 _
      exact getKey_setKey_other data "images" k _ hk1
    · intro k hk
      exact getKey_setKey_other img0 "berry_count" k _ hk
  · rw [if_neg hbc]
    refine ⟨_, rfl, ?_, setKey img0 "berry_count" (JVal.jnum berry_count),
      setKey infoFields "berry_count" (JVal.jnum berry_count), ?_,
      getKey_setKey_same _ "info" _,
      getKey_setKey_same img0 "berry_count" _, ?_, ?_⟩
    · intro k hk1 hk2
      rw [getKey_setKey_other _ "info" k _ hk2]
      exact getKey_setKey_other data "images" k _ hk1
    · rw [getKey_setKey_other _ "info" "images" _ (by decide)]
      exact getKey_setKey_same data "images" _
    · intro k hk
      exact getKey_setKey_other img0 "berry_count" k _ hk
    · intro k hk
      exact getKey_setKey_other infoFields "berry_count" k _ hk

/-- Concrete well-formed document for the C10 witness. -/
def docW : List (String × JVal) :=
  [("info", JVal.jobj [("description", JVal.jstr "d")]),
   ("images", JVal.jarr [JVal.jobj [("id", JVal.jnum 1)]]),
   ("annotations", JVal.jarr []),
   ("categories", JVal.jarr [])]

/-- C10 witness: the frame theorem applied to `docW` with berry count 7. -/
theorem add_berry_count_frame_witness :
    ∃ d', add_berry_count_to_json docW 7 = .ok d' ∧
      (∀ k, k ≠ "images" → k ≠ "info" → getKey d' k = getKey docW k) ∧
      ∃ img0' infoF',
        getKey d' "images" = some (JVal.jarr (JVal.jobj img0' :: [])) ∧
        getKey d' "info" = some (JVal.jobj infoF') ∧
        getKey img0' "berry_count" = some (JVal.jnum 7) ∧
        (∀ k, k ≠ "berry_count" → getKey img0' k = getKey [("id", JVal.jnum 1)] k) ∧
        (∀ k, k ≠ "berry_count" →
          getKey infoF' k = getKey [("description", JVal.jstr "d")] k) :=
  add_berry_count_frame docW 7 [("id", JVal.jnum 1)] []
    [("description", JVal.jstr "d")] rfl rfl
